import Mathlib

/-!
# `src/components/composite/AppLayout.stories.js`

A shallow embedding of the story module and the properties its specification
states about it.

The module is JSX over three imports:

* `React` : every JSX expression of the file is a call of `React.createElement`
  (the file imports `React` for exactly that), modelled by `createElement` as
  the production build of React 16 to 18 defines it;
* `styled` from `@storybook/theming` : `Children` is the result of the tagged
  template `styled.div`, modelled by `Value.styled` and `renderStyled`;
* `AppLayout` from `./AppLayout` : not part of the fragment; it is the
  parameter `AppLayout` of the module, and an object of the heap afterwards.

JavaScript values are the inductive type `Value`. A record is plain data: its
own enumerable string-keyed properties, listed in enumeration order (array
indices ascending, then the other names in order of creation), ordinary and
writable, with the standard `Object.prototype` as prototype. Accessors,
symbols and numbers are not represented. A list of properties that is not in
enumeration order stands for the assignments made in that order.

A call completes in one of three ways (`Completion`): it returns a value, it
throws the `TypeError` of a failed string conversion, or it leaves what is
represented (it runs a function found inside the arguments, or reads an object
whose properties are not represented); of the last nothing further is stated.

The function objects of the module (`Story` and the bound function `Default`)
and the imported component live in an explicit heap: the body of `Story` is
given the heap and the receiver of the call, the assignment `Default.args = ...`
is a state update on one object, and the static `defaultProps` of the
component is read at the time of each call.
-/

namespace AppLayoutStories

/-! ## Values -/

/-- One piece of the style template of a styled component: literal CSS text, or
an interpolated function of the form `props => props.name`. -/
inductive Style where
  | text (css : String)
  | prop (name : String)
  deriving DecidableEq

/-- JavaScript values, as far as the module builds or receives them.
`component name defaultProps` is a React component (a function, a class, or an
object made by `forwardRef` or `memo`) as `React.createElement` reads it: its
identity and its static `defaultProps` (empty when it declares none).
`styled tag styles` is the component that `styled.tag` returns for a style
template. `element type props` is a React element; of its slots only `type`
and the own enumerable properties of `props` are represented (`key`, `ref`, the
bookkeeping slots, the prototype of `props` and the non-enumerable warning
accessors of the development build are not). -/
inductive Value where
  | undefined
  | null
  | bool (b : Bool)
  | str (s : String)
  | arr (items : List Value)
  | obj (fields : List (String × Value))
  | component (name : String) (defaultProps : List (String × Value))
  | styled (tag : String) (styles : List Style)
  | element (type : Value) (props : List (String × Value))

/-- A record (plain object): its own properties in enumeration order. -/
abbrev Props := List (String × Value)

/-- `v === undefined`. -/
def Value.isUndefined : Value → Bool
  | .undefined => true
  | _ => false

/-- JavaScript `ToBoolean`, as used by `a || b`. -/
def truthy : Value → Bool
  | .undefined => false
  | .null => false
  | .bool b => b
  | .str s => !s.isEmpty
  | _ => true

/-- Property read `o[k]` on a record, own properties only: `undefined` when `o`
has no such property. -/
def getProp (k : String) (o : Props) : Value :=
  match o.lookup k with
  | some v => v
  | none => .undefined

/-- Own-property test `o.hasOwnProperty(k)`. -/
def hasOwn (k : String) (o : Props) : Bool :=
  (o.lookup k).isSome

/-- Names of the own properties of a record, `Object.keys(o)`. -/
def keys (o : Props) : List String :=
  o.map Prod.fst

/-- The number a property name stands for when it is an array index: a decimal
numeral without leading zero, below `2^32 - 1`. -/
def arrayIndex (k : String) : Option Nat :=
  match k.toList with
  | [] => none
  | c :: cs =>
    if (c :: cs).all Char.isDigit && (c != '0' || cs.isEmpty) then
      let n := (c :: cs).foldl (fun acc d => 10 * acc + (d.toNat - 48)) 0
      if n < 4294967295 then some n else none
    else none

/-- Order of two different property names in the enumeration of one object:
array indices ascending, before every other name. -/
def precedes (a b : String) : Bool :=
  match arrayIndex a, arrayIndex b with
  | some i, some j => i < j
  | some _, none => true
  | none, some _ => false
  | none, none => a != b

/-- A list of properties is the enumeration of a record: names are distinct,
array indices come first, in ascending order. -/
def isRecord (o : Props) : Prop :=
  (keys o).Pairwise fun a b => precedes a b = true

instance (o : Props) : Decidable (isRecord o) :=
  inferInstanceAs (Decidable ((keys o).Pairwise fun a b => precedes a b = true))

/-- Overwrites the value of the existing property `k`, which keeps its place. -/
def replaceProp (k : String) (v : Value) : Props → Props
  | [] => []
  | (k', v') :: rest =>
    if k' = k then (k, v) :: rest else (k', v') :: replaceProp k v rest

/-- Adds the new array-index property `k`, of index `i`, at its place among the
array indices. -/
def insertIndexed (i : Nat) (k : String) (v : Value) : Props → Props
  | [] => [(k, v)]
  | (k', v') :: rest =>
    match arrayIndex k' with
    | some j =>
      if j < i then (k', v') :: insertIndexed i k v rest else (k, v) :: (k', v') :: rest
    | none => (k, v) :: (k', v') :: rest

/-- Property write `o[k] = v` on the own properties of an ordinary object: an
existing property keeps its place; a new array index is enumerated among the
indices, any other new name last. -/
def setProp (k : String) (v : Value) (o : Props) : Props :=
  if hasOwn k o then replaceProp k v o
  else
    match arrayIndex k with
    | some i => insertIndexed i k v o
    | none => o ++ [(k, v)]

/-! ## Completions and string conversion -/

/-- Outcome of a string conversion: a string results, a `TypeError` is thrown,
or the conversion runs a method supplied with the value (a component stored
under `toString` or `valueOf`), of which nothing is represented. -/
inductive Conversion where
  | ok
  | typeError
  | outside
  deriving DecidableEq

/-- Outcome of a call: see the header. -/
inductive Completion where
  | returns (v : Value)
  | typeError
  | outside

/-- Value of a call that returns (`undefined` for the other completions). -/
def Completion.value : Completion → Value
  | .returns v => v
  | _ => .undefined

/-- Values that may be callable: components of either kind. Every other value
is certainly not callable. -/
def Value.maybeCallable : Value → Bool
  | .component _ _ => true
  | .styled _ _ => true
  | _ => false

/-- `OrdinaryToPrimitive` on a record: the named methods are tried in order. An
own property shadows the inherited method; a property that is not callable is
skipped; the inherited `toString` yields a string, the inherited `valueOf`
yields the record itself and is skipped; when no method is left a `TypeError`
is thrown. -/
def convertRecord (fields : Props) : List String → Conversion
  | [] => .typeError
  | method :: others =>
    match fields.lookup method with
    | some f => if f.maybeCallable then .outside else convertRecord fields others
    | none => if method = "toString" then .ok else convertRecord fields others

mutual
/-- `ToString(v)` as `Array.prototype.join` applies it to an item: `toString`
is tried before `valueOf`. -/
def convertItem : Value → Conversion
  | .obj fields => convertRecord fields ["toString", "valueOf"]
  | .arr items => convertItems items
  | _ => .ok
/-- Conversion of the items of an array, left to right, up to the first that
does not yield a string. -/
def convertItems : List Value → Conversion
  | [] => .ok
  | v :: vs =>
    match convertItem v with
    | .ok => convertItems vs
    | failed => failed
end

/-- The conversion of `'' + v`: for a record `valueOf` is tried before
`toString`; an array is joined; every other value has a string form. -/
def convertKey : Value → Conversion
  | .obj fields => convertRecord fields ["valueOf", "toString"]
  | .arr items => convertItems items
  | _ => .ok

/-! ## `React.createElement` -/

/-- Property names that `React.createElement` consumes itself and never copies
into `props`. -/
def RESERVED_PROPS : List String := ["key", "ref", "__self", "__source"]

/-- Names every ordinary object inherits from `Object.prototype`; none of them
reads as `undefined`. -/
def objectPrototypeNames : List String :=
  [ "constructor", "__defineGetter__", "__defineSetter__", "hasOwnProperty",
    "__lookupGetter__", "__lookupSetter__", "isPrototypeOf", "propertyIsEnumerable",
    "toString", "valueOf", "__proto__", "toLocaleString" ]

/-- Prototype of the object `props` under construction: `Object.prototype`,
`null`, or a record (whose own prototype is `Object.prototype`). -/
inductive Proto where
  | objectPrototype
  | null
  | record (fields : Props)

/-- The object `props` under construction. -/
structure PropsObject where
  own : Props
  proto : Proto

/-- The fresh object `{}`. -/
def emptyObject : PropsObject :=
  { own := [], proto := .objectPrototype }

/-- The test `props[k] !== undefined`; the read goes through the prototype. -/
def PropsObject.defined (p : PropsObject) (k : String) : Bool :=
  match p.own.lookup k with
  | some v => !v.isUndefined
  | none =>
    match p.proto with
    | .objectPrototype => objectPrototypeNames.contains k
    | .null => false
    | .record fields =>
      match fields.lookup k with
      | some v => !v.isUndefined
      | none => objectPrototypeNames.contains k

/-- The write `props.__proto__ = v` reaches the setter of `Object.prototype`:
no own or inherited data property of that name is in the way. -/
def PropsObject.reachesProtoSetter (p : PropsObject) : Bool :=
  !hasOwn "__proto__" p.own &&
    match p.proto with
    | .objectPrototype => true
    | .null => false
    | .record fields => !hasOwn "__proto__" fields

/-- The assignment `props[k] = v`. For `k = "__proto__"` that reaches the setter
no own property is created: a record or `null` becomes the prototype, a
primitive is ignored, and with any other object as prototype the run leaves
what is represented (`none`). Every other assignment writes an own property. -/
def PropsObject.assign (p : PropsObject) (k : String) (v : Value) : Option PropsObject :=
  if k = "__proto__" && p.reachesProtoSetter then
    match v with
    | .obj fields => some { p with proto := .record fields }
    | .null => some { p with proto := .null }
    | .undefined => some p
    | .bool _ => some p
    | .str _ => some p
    | _ => none
  else some { p with own := setProp k v p.own }

/-- The loop `for (propName in config) if (hasOwnProperty.call(config, propName)
&& !RESERVED_PROPS.hasOwnProperty(propName)) props[propName] = config[propName]`. -/
def copyOwn (config : Props) (p : PropsObject) : Option PropsObject :=
  config.foldl
    (fun acc entry =>
      acc.bind fun q =>
        if RESERVED_PROPS.contains entry.1 then some q else q.assign entry.1 entry.2)
    (some p)

/-- The static `type.defaultProps` of an element type: those of a component,
the record under `defaultProps` of a record (a `defaultProps` that is no record
is taken as none), none for any other value (host tags, styled host
components). -/
def defaultPropsOf : Value → Props
  | .component _ defaults => defaults
  | .obj fields =>
    match getProp "defaultProps" fields with
    | .obj defaults => defaults
    | _ => []
  | _ => []

/-- The loop `for (propName in defaultProps) if (props[propName] === undefined)
props[propName] = defaultProps[propName]`. -/
def resolveDefaultProps (defaults : Props) (p : PropsObject) : Option PropsObject :=
  defaults.foldl
    (fun acc d =>
      acc.bind fun q => if q.defined d.1 then some q else q.assign d.1 d.2)
    (some p)

/-- The conversion `key = '' + config.key`, made when `config.key !== undefined`. -/
def keyConversion (config : Props) : Conversion :=
  match getProp "key" config with
  | .undefined => .ok
  | v => convertKey v

/-- The object `props` of `React.createElement(type, config, ...children)`: own
properties of `config` other than the reserved names are assigned to it; the
children arguments, when there are any, become `props.children`; then the
defaults of `type` fill every property that still reads as `undefined`. -/
def buildProps (type : Value) (config : Option Props) (children : List Value) :
    Option PropsObject :=
  let copied : Option PropsObject :=
    match config with
    | some c => copyOwn c emptyObject
    | none => some emptyObject
  let withChildren : Option PropsObject :=
    copied.bind fun p =>
      match children with
      | [] => some p
      | [child] => p.assign "children" child
      | many => p.assign "children" (.arr many)
  withChildren.bind (resolveDefaultProps (defaultPropsOf type))

/-- The conversion of the key that `React.createElement(type, config, ...)`
makes before anything else (none when `config` is `null`). -/
def configConversion : Option Props → Conversion
  | some c => keyConversion c
  | none => .ok

/-- `React.createElement(type, config, ...children)`, the call every JSX
expression stands for: the key of `config`, when there is one, is converted to
a string, then `props` is built and the element returned. -/
def createElement (type : Value) (config : Option Props) (children : List Value) :
    Completion :=
  match configConversion config with
  | .typeError => .typeError
  | .outside => .outside
  | .ok =>
    match buildProps type config children with
    | some p => .returns (.element type p.own)
    | none => .outside

/-- Type of a React element (`undefined` for any other value). -/
def Value.elementType : Value → Value
  | .element type _ => type
  | _ => .undefined

/-- Properties of a React element (none for any other value). -/
def Value.elementProps : Value → Props
  | .element _ props => props
  | _ => []

/-! ## `styled.div` -/

/-- Style text a styled component serialises for given properties: the literal
pieces of its template, each interpolated function applied to the properties. -/
def serializeStyles (styles : List Style) (props : Props) : String :=
  String.join (styles.map fun
    | .text css => css
    | .prop name =>
      match getProp name props with
      | .str s => s
      | _ => "")

/-- What a styled host component renders: the type of the element it creates,
the style text serialised from the component's own template for the class it
attaches (styles of other classes named in `props.className`, which the library
appends after it, are not represented), and the nested content it hands on. -/
structure Frame where
  type : Value
  css : String
  children : Value

/-- Render function of a styled host component: the element type is
`props.as || tag`, the class carries the serialised template, `children` is
forwarded. No other value renders this way. -/
def renderStyled : Value → Props → Option Frame
  | .styled tag styles, props =>
    some
      { type := if truthy (getProp "as" props) then getProp "as" props else .str tag
        css := serializeStyles styles props
        children := getProp "children" props }
  | _, _ => none

/-- Pieces of `cs` between occurrences of `c`. -/
def splitOn (c : Char) : List Char → List (List Char)
  | [] => [[]]
  | x :: xs =>
    if x = c then [] :: splitOn c xs
    else
      match splitOn c xs with
      | [] => [[x]]
      | piece :: pieces => (x :: piece) :: pieces

/-- Removes leading and trailing white space. -/
def trim (cs : List Char) : List Char :=
  ((cs.dropWhile Char.isWhitespace).reverse.dropWhile Char.isWhitespace).reverse

/-- Declarations `name: value;` of a CSS block, in order. -/
def declarations (css : String) : List (String × String) :=
  (splitOn ';' css.toList).filterMap fun d =>
    match d.span (fun ch => ch != ':') with
    | (_, []) => none
    | (name, _ :: value) => some (String.mk (trim name), String.mk (trim value))

/-! ## The module -/

/-- Line 5: `const Children = styled.div` applied to a template that has no
interpolation, hence one literal piece. -/
def Children : Value :=
  .styled "div"
    [.text "
  display: flex;
  align-items: center;
  justify-content: center;
  padding: 169px 0 100px;
"]

/-- Lines 11-14: the object of `export default`. -/
def defaultExport (AppLayout : Value) : Value :=
  .obj [("component", AppLayout), ("title", .str "Composite/AppLayout")]

/-- Code of a function object: the declared function `Story`, or a function
bound to a receiver. -/
inductive Code where
  | Story
  | bound (target : Code) (thisArg : Value)

/-- A function object: its code and the own properties assigned to it (the
built-in `name`, `length` and `prototype` are not represented). -/
structure FunctionObject where
  code : Code
  own : Props

/-- The objects a call can reach: the component imported as `AppLayout`, in its
present state, and the function objects of the module by address. -/
structure Heap where
  AppLayout : Value
  functions : List FunctionObject

/-- Lines 15-17: `function Story(args) { return <AppLayout {...args} />; }`,
as a function of everything a call can observe: the heap, the receiver and the
argument. -/
def Story (h : Heap) (_this : Value) (args : Props) : Completion :=
  createElement h.AppLayout (some args) []

/-- Lines 20-23: the object literal assigned to `Default.args`; its `children`
is the JSX expression `<Children>I am the app.</Children>`. -/
def Default_args : Props :=
  [ ("children", (createElement Children none [.str "I am the app."]).value),
    ("location", .obj [("pathname", .str "")]) ]

/-- Runs the code of a function object with a receiver and an argument. -/
def run (h : Heap) : Code → Value → Props → Completion
  | .Story, this, args => Story h this args
  | .bound target thisArg, _, args => run h target thisArg args

/-- `f.bind(thisArg)`: a new function object, without own properties, whose
call runs `f` with the receiver fixed to `thisArg`. -/
def bindFunction (f : FunctionObject) (thisArg : Value) : FunctionObject :=
  { code := .bound f.code thisArg, own := [] }

/-- Assignment `f.k = v`, for a name `k` that is not built in, on the function
object at `addr` of a list. -/
def assignAt : List FunctionObject → Nat → String → Value → List FunctionObject
  | [], _, _, _ => []
  | f :: rest, 0, k, v => { f with own := setProp k v f.own } :: rest
  | f :: rest, n + 1, k, v => f :: assignAt rest n k v

/-- Assignment `f.k = v`, for a name `k` that is not built in, on the function
object at `addr`. -/
def assignOwn (h : Heap) (addr : Nat) (k : String) (v : Value) : Heap :=
  { h with functions := assignAt h.functions addr k v }

/-- Assignment `AppLayout.defaultProps = defaults`, which any module that
imports the component can make. -/
def assignDefaultProps (h : Heap) (defaults : Props) : Heap :=
  { h with
    AppLayout :=
      match h.AppLayout with
      | .component name _ => .component name defaults
      | other => other }

/-- Call `f.call(this, args)` of the function object at `addr`. -/
def callAt (h : Heap) (addr : Nat) (this : Value) (args : Props) : Option Completion :=
  h.functions[addr]?.map fun f => run h f.code this args

/-- Read `f.k` of the function object at `addr`, when that property has been
assigned to it. -/
def ownAt (h : Heap) (addr : Nat) (k : String) : Option Value :=
  h.functions[addr]?.bind fun f => f.own.lookup k

/-- State of the module once its top-level statements have run. -/
structure Module where
  heap : Heap
  Children : Value
  defaultExport : Value
  Story : Nat
  Default : Nat

/-- Evaluation of the module, statement by statement. -/
def evalModule (AppLayout : Value) : Module :=
  -- function Story(args) { ... }
  let story : FunctionObject := { code := .Story, own := [] }
  let heap1 : Heap := { AppLayout := AppLayout, functions := [story] }
  -- export const Default = Story.bind({});
  let heap2 : Heap :=
    { heap1 with functions := heap1.functions ++ [bindFunction story (.obj [])] }
  -- Default.args = { ... };
  let heap3 : Heap := assignOwn heap2 1 "args" (.obj Default_args)
  { heap := heap3
    Children := Children
    defaultExport := defaultExport AppLayout
    Story := 0
    Default := 1 }

/-! ## Auxiliary forms of the two loops -/

/-- Own properties after the copy loop when no assignment touches the
prototype. -/
def copyFields (config : Props) (own : Props) : Props :=
  config.foldl
    (fun acc entry =>
      if RESERVED_PROPS.contains entry.1 then acc else setProp entry.1 entry.2 acc)
    own

/-- Own properties after the defaults loop on an object whose prototype is
`Object.prototype`. -/
def resolveOwn (defaults : Props) (own : Props) : Props :=
  defaults.foldl
    (fun acc d =>
      if PropsObject.defined { own := acc, proto := .objectPrototype } d.1 then acc
      else setProp d.1 d.2 acc)
    own

/-! ## Text of a rendered tree -/

mutual
/-- Text nodes of a tree of React elements, in document order: a string is a
text node, an array contributes its items, an element its nested content
(`props.children`). -/
def Value.texts : Value → List String
  | .str s => [s]
  | .arr items => textsOfItems items
  | .element _ props => textsOfProps props
  | _ => []
/-- Text nodes of the items of an array of children. -/
def textsOfItems : List Value → List String
  | [] => []
  | v :: vs => v.texts ++ textsOfItems vs
/-- Text nodes under the `children` property of an element. -/
def textsOfProps : List (String × Value) → List String
  | [] => []
  | (k, v) :: rest => (if k = "children" then v.texts else []) ++ textsOfProps rest
end


/-! ## Lemmas on records -/

theorem lookup_eq_none_of_not_mem_keys {k : String} (o : Props) (h : k ∉ keys o) :
    o.lookup k = none := by
  induction o with
  | nil => rfl
  | cons p rest ih =>
    obtain ⟨k0, v0⟩ := p
    simp only [keys, List.map_cons, List.mem_cons, not_or] at h
    have hb : (k == k0) = false := by simpa using h.1
    simp only [List.lookup, hb]
    exact ih h.2

theorem not_mem_keys_of_hasOwn_false {k : String} (o : Props) (h : hasOwn k o = false) :
    k ∉ keys o := by
  induction o with
  | nil => simp [keys]
  | cons p rest ih =>
    obtain ⟨k0, v0⟩ := p
    cases hb : (k == k0) with
    | true => simp [hasOwn, List.lookup, hb] at h
    | false =>
      have hrest : hasOwn k rest = false := by
        simpa [hasOwn, List.lookup, hb] using h
      have hne : k ≠ k0 := by simpa using hb
      have := ih hrest
      simp only [keys, List.map_cons, List.mem_cons, not_or]
      exact ⟨hne, this⟩

theorem lookup_replaceProp_self {k : String} (v : Value) (o : Props)
    (h : hasOwn k o = true) : (replaceProp k v o).lookup k = some v := by
  induction o with
  | nil => exact Bool.noConfusion h
  | cons p rest ih =>
    obtain ⟨k0, v0⟩ := p
    by_cases h0 : k0 = k
    · subst h0
      simp [replaceProp, List.lookup]
    · have hb : (k == k0) = false := by simpa using Ne.symm h0
      have hrest : hasOwn k rest = true := by
        simpa [hasOwn, List.lookup, hb] using h
      simp only [replaceProp, h0, if_false, List.lookup, hb]
      exact ih hrest

theorem lookup_replaceProp_of_ne {k k' : String} (v : Value) (o : Props) (h : k ≠ k') :
    (replaceProp k' v o).lookup k = o.lookup k := by
  have hb : (k == k') = false := by simpa using h
  induction o with
  | nil => rfl
  | cons p rest ih =>
    obtain ⟨k0, v0⟩ := p
    by_cases h0 : k0 = k'
    · subst h0
      simp [replaceProp, List.lookup, hb]
    · simp only [replaceProp, h0, if_false, List.lookup, ih]

theorem keys_replaceProp (k : String) (v : Value) (o : Props) :
    keys (replaceProp k v o) = keys o := by
  induction o with
  | nil => rfl
  | cons p rest ih =>
    obtain ⟨k0, v0⟩ := p
    by_cases h0 : k0 = k
    · subst h0
      simp [replaceProp, keys]
    · simp only [keys, List.map_cons] at ih ⊢
      simp only [replaceProp, h0, if_false, List.map_cons, ih]

theorem lookup_insertIndexed_self {k : String} (i : Nat) (v : Value) (o : Props)
    (h : hasOwn k o = false) : (insertIndexed i k v o).lookup k = some v := by
  induction o with
  | nil => simp [insertIndexed, List.lookup]
  | cons p rest ih =>
    obtain ⟨k0, v0⟩ := p
    have hmem := not_mem_keys_of_hasOwn_false _ h
    simp only [keys, List.map_cons, List.mem_cons, not_or] at hmem
    have hb : (k == k0) = false := by simpa using hmem.1
    have hrest : hasOwn k rest = false := by
      simpa [hasOwn, List.lookup, hb] using h
    unfold insertIndexed
    split
    · split
      · simp only [List.lookup, hb]
        exact ih hrest
      · simp [List.lookup]
    · simp [List.lookup]

theorem lookup_insertIndexed_of_ne {k k' : String} (i : Nat) (v : Value) (o : Props)
    (h : k ≠ k') : (insertIndexed i k' v o).lookup k = o.lookup k := by
  have hb : (k == k') = false := by simpa using h
  induction o with
  | nil => simp [insertIndexed, List.lookup, hb]
  | cons p rest ih =>
    obtain ⟨k0, v0⟩ := p
    unfold insertIndexed
    split
    · split
      · simp only [List.lookup, ih]
      · simp only [List.lookup, hb]
    · simp only [List.lookup, hb]

theorem keys_insertIndexed (i : Nat) (k : String) (v : Value) (o : Props) (a : String) :
    a ∈ keys (insertIndexed i k v o) ↔ a = k ∨ a ∈ keys o := by
  induction o with
  | nil => simp [insertIndexed, keys]
  | cons p rest ih =>
    obtain ⟨k0, v0⟩ := p
    simp only [keys] at ih
    unfold insertIndexed
    split
    · split
      · simp only [keys, List.map_cons, List.mem_cons, ih]
        tauto
      · simp [keys]
    · simp [keys]

theorem lookup_append_self {k : String} (v : Value) (o : Props) (h : hasOwn k o = false) :
    (o ++ [(k, v)]).lookup k = some v := by
  induction o with
  | nil => simp [List.lookup]
  | cons p rest ih =>
    obtain ⟨k0, v0⟩ := p
    have hmem := not_mem_keys_of_hasOwn_false _ h
    simp only [keys, List.map_cons, List.mem_cons, not_or] at hmem
    have hb : (k == k0) = false := by simpa using hmem.1
    have hrest : hasOwn k rest = false := by
      simpa [hasOwn, List.lookup, hb] using h
    simp only [List.cons_append, List.lookup, hb]
    exact ih hrest

theorem lookup_append_of_ne {k k' : String} (v : Value) (o : Props) (h : k ≠ k') :
    (o ++ [(k', v)]).lookup k = o.lookup k := by
  have hb : (k == k') = false := by simpa using h
  induction o with
  | nil => simp [List.lookup, hb]
  | cons p rest ih =>
    obtain ⟨k0, v0⟩ := p
    simp only [List.cons_append, List.lookup, List.append_eq, ih]

theorem lookup_setProp_self (k : String) (v : Value) (o : Props) :
    (setProp k v o).lookup k = some v := by
  unfold setProp
  cases h : hasOwn k o with
  | true => simpa using lookup_replaceProp_self v o h
  | false =>
    simp only [Bool.false_eq_true, if_false]
    split
    · exact lookup_insertIndexed_self _ v o h
    · exact lookup_append_self v o h

theorem lookup_setProp_of_ne {k k' : String} (v : Value) (o : Props) (h : k ≠ k') :
    (setProp k' v o).lookup k = o.lookup k := by
  unfold setProp
  split
  · exact lookup_replaceProp_of_ne v o h
  · split
    · exact lookup_insertIndexed_of_ne _ v o h
    · exact lookup_append_of_ne v o h

theorem mem_keys_setProp {a : String} (k : String) (v : Value) (o : Props)
    (h : a ∈ keys (setProp k v o)) : a = k ∨ a ∈ keys o := by
  unfold setProp at h
  split at h
  · rw [keys_replaceProp] at h
    exact Or.inr h
  · split at h
    · exact (keys_insertIndexed _ k v o a).mp h
    · simp only [keys, List.map_append, List.map_cons, List.map_nil, List.mem_append,
        List.mem_singleton] at h
      rcases h with h | h
      · exact Or.inr h
      · exact Or.inl h

theorem hasOwn_false_of_not_mem_keys {k : String} (o : Props) (h : k ∉ keys o) :
    hasOwn k o = false := by
  rw [hasOwn, lookup_eq_none_of_not_mem_keys o h]
  rfl

theorem precedes_self (a : String) : precedes a a = false := by
  unfold precedes
  cases arrayIndex a <;> simp

theorem insertIndexed_eq_append (i : Nat) (k : String) (v : Value) (o : Props)
    (h : ∀ a ∈ keys o, ∃ j, arrayIndex a = some j ∧ j < i) :
    insertIndexed i k v o = o ++ [(k, v)] := by
  induction o with
  | nil => rfl
  | cons p rest ih =>
    obtain ⟨k0, v0⟩ := p
    obtain ⟨j, hj, hlt⟩ := h k0 (by simp [keys])
    have hrest : ∀ a ∈ keys rest, ∃ j, arrayIndex a = some j ∧ j < i := fun a ha =>
      h a (by
        simp only [keys, List.map_cons, List.mem_cons]
        exact Or.inr ha)
    simp only [insertIndexed, hj, hlt, if_true, ih hrest, List.cons_append]

theorem setProp_eq_append (k : String) (v : Value) (o : Props)
    (h : ∀ a ∈ keys o, precedes a k = true) : setProp k v o = o ++ [(k, v)] := by
  have hnot : k ∉ keys o := fun hm => by
    have := h k hm
    rw [precedes_self] at this
    exact Bool.noConfusion this
  unfold setProp
  rw [hasOwn_false_of_not_mem_keys o hnot]
  simp only [Bool.false_eq_true, if_false]
  cases hi : arrayIndex k with
  | none => rfl
  | some i =>
    refine insertIndexed_eq_append i k v o fun a ha => ?_
    have hp := h a ha
    unfold precedes at hp
    rw [hi] at hp
    cases hj : arrayIndex a with
    | none => simp [hj] at hp
    | some j => exact ⟨j, rfl, by simpa [hj] using hp⟩

theorem copyFields_eq_append (config own : Props) (hrecord : isRecord (own ++ config))
    (hreserved : ∀ k ∈ keys config, k ∉ RESERVED_PROPS) :
    copyFields config own = own ++ config := by
  induction config generalizing own with
  | nil => simp [copyFields]
  | cons p rest ih =>
    obtain ⟨k, v⟩ := p
    have hk : RESERVED_PROPS.contains k = false := by
      have := hreserved k (by simp [keys])
      simpa using this
    have hpair : (keys own ++ k :: keys rest).Pairwise fun a b => precedes a b = true := by
      simpa [isRecord, keys] using hrecord
    have hbefore : ∀ a ∈ keys own, precedes a k = true := fun a ha =>
      (List.pairwise_append.mp hpair).2.2 a ha k (List.mem_cons_self k _)
    have hstep : setProp k v own = own ++ [(k, v)] := setProp_eq_append k v own hbefore
    have hnext : isRecord ((own ++ [(k, v)]) ++ rest) := by
      simpa [isRecord, keys] using hrecord
    have := ih (own ++ [(k, v)]) hnext fun a ha =>
      hreserved a (by
        simp only [keys, List.map_cons, List.mem_cons]
        exact Or.inr ha)
    unfold copyFields at this ⊢
    simp only [List.foldl_cons, hk, Bool.false_eq_true, if_false, hstep, this,
      List.append_assoc, List.singleton_append]

theorem lookup_copyFields {k : String} (config own : Props) (hk : k ∉ RESERVED_PROPS)
    (hdistinct : (keys config).Nodup) :
    (copyFields config own).lookup k =
      match config.lookup k with
      | some v => some v
      | none => own.lookup k := by
  induction config generalizing own with
  | nil => rfl
  | cons p rest ih =>
    obtain ⟨k0, v0⟩ := p
    have hnd : k0 ∉ keys rest ∧ (keys rest).Nodup := by
      simpa [keys] using hdistinct
    have hfold : copyFields ((k0, v0) :: rest) own =
        copyFields rest (if RESERVED_PROPS.contains k0 then own else setProp k0 v0 own) := rfl
    rw [hfold, ih _ hnd.2]
    by_cases hkk : k = k0
    · subst hkk
      have hc : RESERVED_PROPS.contains k = false := by simpa using hk
      simp [hk, lookup_eq_none_of_not_mem_keys rest hnd.1, lookup_setProp_self]
    · have hb : (k == k0) = false := by simpa using hkk
      simp only [List.lookup, hb]
      cases hc : RESERVED_PROPS.contains k0 with
      | true => simp
      | false => simp [lookup_setProp_of_ne _ _ hkk]

theorem mem_keys_copyFields {a : String} (config own : Props)
    (h : a ∈ keys (copyFields config own)) : a ∈ keys own ∨ a ∈ keys config := by
  induction config generalizing own with
  | nil => exact Or.inl h
  | cons p rest ih =>
    obtain ⟨k0, v0⟩ := p
    have hfold : copyFields ((k0, v0) :: rest) own =
        copyFields rest (if RESERVED_PROPS.contains k0 then own else setProp k0 v0 own) := rfl
    rw [hfold] at h
    rcases ih _ h with h1 | h1
    · cases hc : RESERVED_PROPS.contains k0 with
      | true =>
        rw [hc] at h1
        exact Or.inl h1
      | false =>
        rw [hc] at h1
        rcases mem_keys_setProp k0 v0 own h1 with h2 | h2
        · exact Or.inr (by simp [keys, h2])
        · exact Or.inl h2
    · exact Or.inr (by
        simp only [keys, List.map_cons, List.mem_cons]
        exact Or.inr h1)

/-! ## Lemmas on the two loops of element creation -/

theorem copyOwn_eq (config : Props) (p : PropsObject) (h : "__proto__" ∉ keys config) :
    copyOwn config p = some { p with own := copyFields config p.own } := by
  induction config generalizing p with
  | nil => rfl
  | cons entry rest ih =>
    obtain ⟨k, v⟩ := entry
    have hk : k ≠ "__proto__" := fun e => h (by simp [keys, e])
    have hrest : "__proto__" ∉ keys rest := fun hm => h (by
      simp only [keys, List.map_cons, List.mem_cons]
      exact Or.inr hm)
    have hassign : p.assign k v = some { p with own := setProp k v p.own } := by
      simp [PropsObject.assign, hk]
    have hfold : copyOwn ((k, v) :: rest) p =
        List.foldl
          (fun acc entry =>
            acc.bind fun q =>
              if RESERVED_PROPS.contains entry.1 then some q else q.assign entry.1 entry.2)
          (if RESERVED_PROPS.contains k then some p else p.assign k v) rest := rfl
    rw [hfold]
    cases hc : RESERVED_PROPS.contains k with
    | true =>
      have := ih p hrest
      unfold copyOwn at this
      have hm : k ∈ RESERVED_PROPS := by simpa using hc
      simp only [if_true, this]
      simp [copyFields, hm]
    | false =>
      have := ih { p with own := setProp k v p.own } hrest
      unfold copyOwn at this
      have hm : k ∉ RESERVED_PROPS := by simpa using hc
      simp only [Bool.false_eq_true, if_false, hassign, this]
      simp [copyFields, hm]

theorem defined_of_own_defined {k : String} (own : Props) (proto : Proto)
    (h : (getProp k own).isUndefined = false) :
    PropsObject.defined { own := own, proto := proto } k = true := by
  unfold getProp at h
  unfold PropsObject.defined
  cases hl : own.lookup k with
  | none => simp [hl, Value.isUndefined] at h
  | some v => simpa [hl] using h

theorem assign_of_not_defined {k : String} (own : Props) (v : Value)
    (h : PropsObject.defined { own := own, proto := .objectPrototype } k = false) :
    PropsObject.assign { own := own, proto := .objectPrototype } k v =
      some { own := setProp k v own, proto := .objectPrototype } := by
  have hcond : (k = "__proto__" &&
      PropsObject.reachesProtoSetter { own := own, proto := .objectPrototype }) = false := by
    by_cases hk : k = "__proto__"
    · subst hk
      cases ho : hasOwn "__proto__" own with
      | true => simp [PropsObject.reachesProtoSetter, ho]
      | false =>
        have hl : own.lookup "__proto__" = none := by
          unfold hasOwn at ho
          cases hl : own.lookup "__proto__" with
          | none => rfl
          | some w => simp [hl] at ho
        have : PropsObject.defined { own := own, proto := .objectPrototype } "__proto__"
            = true := by
          unfold PropsObject.defined
          rw [hl]
          rfl
        rw [this] at h
        exact Bool.noConfusion h
    · simp [hk]
  unfold PropsObject.assign
  rw [hcond]
  rfl

theorem resolveDefaultProps_eq (defaults own : Props) :
    resolveDefaultProps defaults { own := own, proto := .objectPrototype } =
      some { own := resolveOwn defaults own, proto := .objectPrototype } := by
  induction defaults generalizing own with
  | nil => rfl
  | cons d ds ih =>
    have hfold : resolveDefaultProps (d :: ds) { own := own, proto := .objectPrototype } =
        List.foldl
          (fun acc d => acc.bind fun q => if q.defined d.1 then some q else q.assign d.1 d.2)
          (if PropsObject.defined { own := own, proto := .objectPrototype } d.1
            then some { own := own, proto := .objectPrototype }
            else PropsObject.assign { own := own, proto := .objectPrototype } d.1 d.2) ds :=
      rfl
    rw [hfold]
    cases hd : PropsObject.defined { own := own, proto := .objectPrototype } d.1 with
    | true =>
      have := ih own
      unfold resolveDefaultProps at this
      simp only [if_true, this]
      simp [resolveOwn, hd]
    | false =>
      have := ih (setProp d.1 d.2 own)
      unfold resolveDefaultProps at this
      simp only [Bool.false_eq_true, if_false, assign_of_not_defined own d.2 hd, this]
      simp [resolveOwn, hd]

theorem resolveOwn_cons (d : String × Value) (ds own : Props) :
    resolveOwn (d :: ds) own =
      resolveOwn ds
        (if PropsObject.defined { own := own, proto := .objectPrototype } d.1 then own
          else setProp d.1 d.2 own) := rfl

theorem resolveOwn_inert (defaults own : Props)
    (h : ∀ d ∈ defaults,
      PropsObject.defined { own := own, proto := .objectPrototype } d.1 = true) :
    resolveOwn defaults own = own := by
  induction defaults with
  | nil => rfl
  | cons d ds ih =>
    rw [resolveOwn_cons, h d (List.mem_cons_self d ds)]
    exact ih fun e he => h e (List.mem_cons_of_mem d he)

theorem lookup_resolveOwn {k : String} (defaults own : Props)
    (h : k ∉ keys defaults ∨ (getProp k own).isUndefined = false) :
    (resolveOwn defaults own).lookup k = own.lookup k := by
  induction defaults generalizing own with
  | nil => rfl
  | cons d ds ih =>
    rw [resolveOwn_cons]
    cases hd : PropsObject.defined { own := own, proto := .objectPrototype } d.1 with
    | true =>
      simp only [if_true]
      apply ih
      rcases h with h | h
      · exact Or.inl fun hm => h (by
          simp only [keys, List.map_cons, List.mem_cons]
          exact Or.inr hm)
      · exact Or.inr h
    | false =>
      have hne : k ≠ d.1 := by
        rcases h with h | h
        · intro e
          exact h (by simp [keys, e])
        · intro e
          rw [e] at h
          rw [defined_of_own_defined own .objectPrototype h] at hd
          exact Bool.noConfusion hd
      simp only [Bool.false_eq_true, if_false]
      rw [ih, lookup_setProp_of_ne _ _ hne]
      rcases h with h | h
      · exact Or.inl fun hm => h (by
          simp only [keys, List.map_cons, List.mem_cons]
          exact Or.inr hm)
      · right
        unfold getProp at h ⊢
        rw [lookup_setProp_of_ne _ _ hne]
        exact h

theorem mem_keys_resolveOwn {a : String} (defaults own : Props)
    (h : a ∈ keys (resolveOwn defaults own)) : a ∈ keys own ∨ a ∈ keys defaults := by
  induction defaults generalizing own with
  | nil => exact Or.inl h
  | cons d ds ih =>
    rw [resolveOwn_cons] at h
    rcases ih _ h with h1 | h1
    · cases hd : PropsObject.defined { own := own, proto := .objectPrototype } d.1 with
      | true =>
        rw [hd] at h1
        exact Or.inl h1
      | false =>
        rw [hd] at h1
        rcases mem_keys_setProp d.1 d.2 own h1 with h2 | h2
        · exact Or.inr (by simp [keys, h2])
        · exact Or.inl h2
    · exact Or.inr (by
        simp only [keys, List.map_cons, List.mem_cons]
        exact Or.inr h1)

theorem textsOfProps_append (o o' : Props) :
    textsOfProps (o ++ o') = textsOfProps o ++ textsOfProps o' := by
  induction o with
  | nil => simp [textsOfProps]
  | cons p rest ih =>
    obtain ⟨k0, v0⟩ := p
    simp only [List.cons_append, textsOfProps, List.append_eq, ih, List.append_assoc]

theorem textsOfProps_replaceProp_of_ne {k : String} (v : Value) (o : Props)
    (h : k ≠ "children") : textsOfProps (replaceProp k v o) = textsOfProps o := by
  induction o with
  | nil => rfl
  | cons p rest ih =>
    obtain ⟨k0, v0⟩ := p
    by_cases h0 : k0 = k
    · subst h0
      simp [replaceProp, textsOfProps, h]
    · simp [replaceProp, textsOfProps, h0, ih]

theorem textsOfProps_insertIndexed_of_ne {k : String} (i : Nat) (v : Value) (o : Props)
    (h : k ≠ "children") : textsOfProps (insertIndexed i k v o) = textsOfProps o := by
  induction o with
  | nil => simp [insertIndexed, textsOfProps, h]
  | cons p rest ih =>
    obtain ⟨k0, v0⟩ := p
    unfold insertIndexed
    split
    · split
      · simp only [textsOfProps, ih]
      · simp [textsOfProps, h]
    · simp [textsOfProps, h]

theorem textsOfProps_setProp_of_ne {k : String} (v : Value) (o : Props)
    (h : k ≠ "children") : textsOfProps (setProp k v o) = textsOfProps o := by
  unfold setProp
  split
  · exact textsOfProps_replaceProp_of_ne v o h
  · split
    · exact textsOfProps_insertIndexed_of_ne _ v o h
    · simp [textsOfProps_append, textsOfProps, h]

theorem textsOfProps_resolveOwn (defaults own : Props)
    (h : (getProp "children" own).isUndefined = false) :
    textsOfProps (resolveOwn defaults own) = textsOfProps own := by
  induction defaults generalizing own with
  | nil => rfl
  | cons d ds ih =>
    rw [resolveOwn_cons]
    cases hd : PropsObject.defined { own := own, proto := .objectPrototype } d.1 with
    | true =>
      simp only [if_true]
      exact ih own h
    | false =>
      have hne : d.1 ≠ "children" := by
        intro e
        rw [e, defined_of_own_defined own .objectPrototype h] at hd
        exact Bool.noConfusion hd
      simp only [Bool.false_eq_true, if_false]
      rw [ih, textsOfProps_setProp_of_ne _ _ hne]
      unfold getProp at h ⊢
      rw [lookup_setProp_of_ne _ _ (Ne.symm hne)]
      exact h

theorem keyConversion_of_no_key (config : Props) (h : hasOwn "key" config = false) :
    keyConversion config = .ok := by
  have hl : config.lookup "key" = none :=
    lookup_eq_none_of_not_mem_keys config (not_mem_keys_of_hasOwn_false config h)
  unfold keyConversion getProp
  rw [hl]

theorem createElement_eq (type : Value) (config : Props)
    (hkey : keyConversion config = .ok) (hproto : "__proto__" ∉ keys config) :
    createElement type (some config) [] =
      .returns (.element type (resolveOwn (defaultPropsOf type) (copyFields config []))) := by
  have hbuild : buildProps type (some config) [] =
      some { own := resolveOwn (defaultPropsOf type) (copyFields config []),
             proto := .objectPrototype } := by
    unfold buildProps
    simp only [copyOwn_eq config emptyObject hproto, Option.some_bind]
    exact resolveDefaultProps_eq _ _
  unfold createElement configConversion
  simp only [hkey, hbuild]

theorem createElement_type (type : Value) (config : Option Props) (children : List Value)
    (element : Value) (h : createElement type config children = .returns element) :
    element.elementType = type := by
  unfold createElement at h
  cases hc : configConversion config with
  | typeError => simp [hc] at h
  | outside => simp [hc] at h
  | ok =>
    cases hb : buildProps type config children with
    | none => simp [hc, hb] at h
    | some p =>
      simp only [hc, hb] at h
      cases h
      rfl

theorem run_eq (h : Heap) (code : Code) (this : Value) (args : Props) :
    run h code this args = createElement h.AppLayout (some args) [] := by
  induction code generalizing this with
  | Story => rfl
  | bound target thisArg ih => exact ih thisArg


/-! ## The render adapter `Story` -/

/-- C1 (as stated, refuted): three argument records on which the properties of
the element `Story` returns are not the fields of the record. Called with
`{ key: "row" }` it returns an element without any property, the field `key`
having been consumed by element creation; called with a record that has an own
field `__proto__` it returns an element without that field; and when `AppLayout`
declares the default property `theme`, the element has a property `theme` that
the record `{ a: "2" }` does not have. -/
theorem Story_args_not_forwarded :
    Story (evalModule (.component "./AppLayout" [])).heap .undefined [("key", .str "row")]
        = .returns (.element (.component "./AppLayout" []) []) ∧
      Story (evalModule (.component "./AppLayout" [])).heap .undefined
          [("__proto__", .obj [("x", .str "1")]), ("a", .str "2")]
        = .returns (.element (.component "./AppLayout" []) [("a", .str "2")]) ∧
      Story (evalModule (.component "./AppLayout" [("theme", .str "light")])).heap .undefined
          [("a", .str "2")]
        = .returns (.element (.component "./AppLayout" [("theme", .str "light")])
            [("a", .str "2"), ("theme", .str "light")]) ∧
      ¬ ∀ (h : Heap) (this : Value) (args : Props),
          Story h this args = .returns (.element h.AppLayout args) := by
  refine ⟨rfl, rfl, rfl, ?_⟩
  intro hall
  have h1 := hall (evalModule (.component "./AppLayout" [])).heap .undefined
    [("key", .str "row")]
  have h2 : Story (evalModule (.component "./AppLayout" [])).heap .undefined
      [("key", .str "row")] = .returns (.element (.component "./AppLayout" []) []) := rfl
  rw [h2] at h1
  have h3 := congrArg (fun c => keys c.value.elementProps) h1
  exact absurd h3 (by decide)

/-- C1 (amended): for every argument record `args` (distinct names in
enumeration order) that holds none of the names element creation keeps out of
the properties (`key`, `ref`, `__self`, `__source`, `__proto__`), and a
component `AppLayout` none of whose default properties applies (every name it
declares a default for reads as defined on `args`), `Story(args)` returns the
`AppLayout` element whose properties are exactly the fields of `args` with the
same values, whatever the receiver and the rest of the heap; in particular,
when `args` is `Default.args`, the element has exactly the two properties
`children` and `location`. -/
theorem Story_props_eq_args (h : Heap) (this : Value) (args : Props)
    (name : String) (defaults : Props)
    (hcomponent : h.AppLayout = .component name defaults)
    (hrecord : isRecord args)
    (hreserved : ∀ k ∈ keys args, k ∉ "__proto__" :: RESERVED_PROPS)
    (hdefaults : ∀ d ∈ defaults,
      PropsObject.defined { own := args, proto := .objectPrototype } d.1 = true) :
    Story h this args = .returns (.element h.AppLayout args) ∧
      (args = Default_args →
        keys (Story h this args).value.elementProps = ["children", "location"]) := by
  have hkey : keyConversion args = .ok := by
    apply keyConversion_of_no_key
    apply hasOwn_false_of_not_mem_keys
    intro hm
    exact hreserved "key" hm (by decide)
  have hproto : "__proto__" ∉ keys args := fun hm =>
    hreserved "__proto__" hm (List.mem_cons_self _ _)
  have hcopy : copyFields args [] = args := by
    have := copyFields_eq_append args [] (by simpa using hrecord) fun k hk hr =>
      hreserved k hk (List.mem_cons_of_mem _ hr)
    simpa using this
  have hstory : Story h this args = .returns (.element h.AppLayout args) := by
    show createElement h.AppLayout (some args) [] = _
    rw [createElement_eq _ _ hkey hproto, hcopy, hcomponent]
    exact congrArg (fun props => Completion.returns (Value.element _ props))
      (resolveOwn_inert defaults args hdefaults)
  refine ⟨hstory, ?_⟩
  intro hargs
  rw [hstory, hargs]
  rfl

/-- C1 (witness): the amended statement at `Default.args`, in the heap of the
module, for an `AppLayout` that declares a default for `children`. -/
theorem Story_props_eq_args_witness :
    Story (evalModule (.component "./AppLayout" [("children", .null)])).heap .undefined
        Default_args
      = .returns (.element (.component "./AppLayout" [("children", .null)]) Default_args) ∧
      (Default_args = Default_args →
        keys (Story (evalModule (.component "./AppLayout" [("children", .null)])).heap
          .undefined Default_args).value.elementProps = ["children", "location"]) :=
  Story_props_eq_args (evalModule (.component "./AppLayout" [("children", .null)])).heap
    .undefined Default_args "./AppLayout" [("children", .null)] rfl
    (by decide) (by decide) (by decide)

/-- C2: the object of `export default` has exactly the fields `component` and
`title`; `title` is the literal `Composite/AppLayout`, and `component` is the
imported `AppLayout`, which is the type of every element a call of `Story`
returns, whatever the receiver and the arguments; such a call does return an
element whenever the arguments have no field `key` and no field `__proto__`. -/
theorem metadata_title_component (AppLayout : Value) (args : Props) (this : Value) :
    ∃ fields completion,
      (evalModule AppLayout).defaultExport = .obj fields ∧
      keys fields = ["component", "title"] ∧
      getProp "title" fields = .str "Composite/AppLayout" ∧
      getProp "component" fields = AppLayout ∧
      callAt (evalModule AppLayout).heap (evalModule AppLayout).Story this args
        = some completion ∧
      (∀ element, completion = .returns element →
        element.elementType = getProp "component" fields) ∧
      (hasOwn "key" args = false → hasOwn "__proto__" args = false →
        ∃ element, completion = .returns element) := by
  refine ⟨_, createElement AppLayout (some args) [], rfl, rfl, rfl, rfl, rfl, ?_, ?_⟩
  · intro element hreturns
    exact createElement_type _ _ _ _ hreturns
  · intro hkey hproto
    exact ⟨_, createElement_eq _ _ (keyConversion_of_no_key _ hkey)
      (not_mem_keys_of_hasOwn_false _ hproto)⟩

/-- C3: `Story` called with the record stored in `Default.args` returns an
`AppLayout` element whose `children` property is the `Children` element with
the text "I am the app." as its only property and only nested content; that
text is the one text node of the returned tree. -/
theorem Default_story_contains_text (AppLayout : Value) :
    ∃ args props,
      ownAt (evalModule AppLayout).heap (evalModule AppLayout).Default "args"
        = some (.obj args) ∧
      callAt (evalModule AppLayout).heap (evalModule AppLayout).Story .undefined args
        = some (.returns (.element AppLayout props)) ∧
      props.lookup "children"
        = some (.element Children [("children", .str "I am the app.")]) ∧
      (Value.element AppLayout props).texts = ["I am the app."] := by
  have hcall :
      callAt (evalModule AppLayout).heap (evalModule AppLayout).Story .undefined Default_args
        = some (.returns (.element AppLayout
            (resolveOwn (defaultPropsOf AppLayout) Default_args))) := by
    show some (createElement AppLayout (some Default_args) []) = _
    rw [createElement_eq AppLayout Default_args rfl (by decide)]
    rfl
  refine ⟨Default_args, resolveOwn (defaultPropsOf AppLayout) Default_args,
    rfl, hcall, ?_, ?_⟩
  · have hdefined : (getProp "children" Default_args).isUndefined = false := rfl
    rw [lookup_resolveOwn (defaultPropsOf AppLayout) Default_args (Or.inr hdefined)]
    rfl
  · show textsOfProps (resolveOwn (defaultPropsOf AppLayout) Default_args) = _
    rw [textsOfProps_resolveOwn (defaultPropsOf AppLayout) Default_args rfl]
    rfl

/-- C4 (as stated, refuted): two calls of `Story` with the same record
`{ id: "x" }`, the second made after the assignment
`AppLayout.defaultProps = { theme: "light" }`, return elements with different
properties: `id` alone, then `id` and `theme`. -/
theorem Story_reads_defaultProps :
    callAt (evalModule (.component "./AppLayout" [])).heap
        (evalModule (.component "./AppLayout" [])).Story .undefined [("id", .str "x")]
      = some (.returns (.element (.component "./AppLayout" []) [("id", .str "x")])) ∧
    callAt
        (assignDefaultProps (evalModule (.component "./AppLayout" [])).heap
          [("theme", .str "light")])
        (evalModule (.component "./AppLayout" [])).Story .undefined [("id", .str "x")]
      = some (.returns (.element (.component "./AppLayout" [("theme", .str "light")])
          [("id", .str "x"), ("theme", .str "light")])) ∧
    keys [("id", Value.str "x")] ≠ keys [("id", Value.str "x"), ("theme", Value.str "light")] :=
  ⟨rfl, rfl, by decide⟩

/-- C4 (amended): the result of `Story` depends on the arguments and on the
state of the imported component `AppLayout` at the time of the call (the
default properties it declares), and on nothing else: two calls with the same
`args`, made in any two heaps that hold the same `AppLayout` and with any two
receivers, complete alike, returning the same element or throwing alike, also
when made through a function bound to `Story`. Excepted are calls that run a
function supplied inside `args`, of which nothing is stated. -/
theorem Story_deterministic (h1 h2 : Heap) (this1 this2 : Value) (args : Props)
    (hsame : h1.AppLayout = h2.AppLayout) (hinside : Story h1 this1 args ≠ .outside) :
    Story h1 this1 args = Story h2 this2 args ∧
      Story h2 this2 args ≠ .outside ∧
      ∀ code : Code, run h1 code this1 args = run h2 code this2 args := by
  have hstory : Story h1 this1 args = Story h2 this2 args := by
    show createElement h1.AppLayout (some args) [] = createElement h2.AppLayout (some args) []
    rw [hsame]
  refine ⟨hstory, ?_, ?_⟩
  · rw [← hstory]
    exact hinside
  · intro code
    rw [run_eq, run_eq, hsame]

/-- C4 (witness): the amended statement for the heap of the module and the heap
after an assignment to a property of the function object `Story`, with two
different receivers, at `Default.args`. -/
theorem Story_deterministic_witness :
    Story (evalModule (.component "./AppLayout" [])).heap .undefined Default_args
        = Story (assignOwn (evalModule (.component "./AppLayout" [])).heap 0 "title" .null)
            (.obj []) Default_args ∧
      Story (assignOwn (evalModule (.component "./AppLayout" [])).heap 0 "title" .null)
          (.obj []) Default_args ≠ .outside ∧
      ∀ code : Code,
        run (evalModule (.component "./AppLayout" [])).heap code .undefined Default_args
          = run (assignOwn (evalModule (.component "./AppLayout" [])).heap 0 "title" .null)
              code (.obj []) Default_args :=
  Story_deterministic (evalModule (.component "./AppLayout" [])).heap
    (assignOwn (evalModule (.component "./AppLayout" [])).heap 0 "title" .null)
    .undefined (.obj []) Default_args rfl (fun hout => Completion.noConfusion hout)

/-- C5 (as stated, refuted): five argument records without a `location` field.
The field `key` of the first is not forwarded. For the second, `AppLayout`
declares a default for `location` and the element has a `location` property.
The third holds a key without string conversion and the call throws. The field
`id` of the fourth holds `undefined` and is replaced by the default `AppLayout`
declares for it. The own field `__proto__` of the fifth is not forwarded. -/
theorem Story_missing_location_refuted :
    Story (evalModule (.component "./AppLayout" [])).heap .undefined
        [("key", .str "row"), ("id", .str "x")]
      = .returns (.element (.component "./AppLayout" []) [("id", .str "x")]) ∧
    Story (evalModule (.component "./AppLayout" [("location", .obj [("pathname", .str "/")])])).heap
        .undefined [("id", .str "x")]
      = .returns (.element (.component "./AppLayout" [("location", .obj [("pathname", .str "/")])])
          [("id", .str "x"), ("location", .obj [("pathname", .str "/")])]) ∧
    Story (evalModule (.component "./AppLayout" [])).heap .undefined
        [("key", .obj [("toString", .null), ("valueOf", .null)])]
      = .typeError ∧
    Story (evalModule (.component "./AppLayout" [("id", .str "none")])).heap .undefined
        [("id", .undefined)]
      = .returns (.element (.component "./AppLayout" [("id", .str "none")])
          [("id", .str "none")]) ∧
    Story (evalModule (.component "./AppLayout" [])).heap .undefined
        [("__proto__", .obj [("x", .str "1")]), ("id", .str "x")]
      = .returns (.element (.component "./AppLayout" []) [("id", .str "x")]) :=
  ⟨rfl, rfl, rfl, rfl, rfl⟩

/-- C5 (amended): `Story` does not handle a missing `location` specially. For
every argument record `args` (distinct names) that has no `location` field and
no `__proto__` field and whose `key`, if it has one, converts to a string, and
a component `AppLayout` that declares no default for `location`, `Story(args)`
does not fail: it returns an `AppLayout` element whose properties have no
`location` either; every property of the element is named by a field of `args`
or by a default that `AppLayout` declares, so nothing is injected by `Story`;
and every field of `args` other than `key`, `ref`, `__self`, `__source` that
holds a defined value is forwarded with that value. -/
theorem Story_missing_location (h : Heap) (this : Value) (args : Props)
    (name : String) (defaults : Props)
    (hcomponent : h.AppLayout = .component name defaults)
    (hargs : hasOwn "location" args = false)
    (hdefault : hasOwn "location" defaults = false)
    (hdistinct : (keys args).Nodup)
    (hproto : hasOwn "__proto__" args = false)
    (hkey : keyConversion args = .ok) :
    ∃ props,
      Story h this args = .returns (.element h.AppLayout props) ∧
      "location" ∉ keys props ∧
      (∀ k ∈ keys props, k ∈ keys args ∨ k ∈ keys defaults) ∧
      ∀ k, k ∉ RESERVED_PROPS → (getProp k args).isUndefined = false →
        props.lookup k = args.lookup k := by
  have hdefaultProps : defaultPropsOf h.AppLayout = defaults := by
    rw [hcomponent]
    rfl
  have hnames : ∀ k ∈ keys (resolveOwn defaults (copyFields args [])),
      k ∈ keys args ∨ k ∈ keys defaults := by
    intro k hk
    rcases mem_keys_resolveOwn _ _ hk with h1 | h1
    · rcases mem_keys_copyFields _ _ h1 with h2 | h2
      · simp [keys] at h2
      · exact Or.inl h2
    · exact Or.inr h1
  have hstory : Story h this args =
      .returns (.element h.AppLayout (resolveOwn defaults (copyFields args []))) := by
    show createElement h.AppLayout (some args) [] = _
    rw [createElement_eq _ _ hkey (not_mem_keys_of_hasOwn_false _ hproto), hdefaultProps]
  refine ⟨resolveOwn defaults (copyFields args []), hstory, ?_, hnames, ?_⟩
  · intro hm
    rcases hnames _ hm with h1 | h1
    · exact not_mem_keys_of_hasOwn_false _ hargs h1
    · exact not_mem_keys_of_hasOwn_false _ hdefault h1
  · intro k hk hdefined
    have hcopy : (copyFields args []).lookup k = args.lookup k := by
      rw [lookup_copyFields args [] hk hdistinct]
      cases hl : args.lookup k with
      | some v => rfl
      | none => rfl
    rw [lookup_resolveOwn, hcopy]
    right
    unfold getProp at hdefined ⊢
    rw [hcopy]
    exact hdefined

/-- C5 (witness): the amended statement at the record `{ key: "row", id: "x" }`,
in the heap of the module, for an `AppLayout` that declares a default for
`children`. -/
theorem Story_missing_location_witness :
    ∃ props,
      Story (evalModule (.component "./AppLayout" [("children", .null)])).heap .undefined
          [("key", .str "row"), ("id", .str "x")]
        = .returns (.element (.component "./AppLayout" [("children", .null)]) props) ∧
      "location" ∉ keys props ∧
      (∀ k ∈ keys props,
        k ∈ keys [("key", Value.str "row"), ("id", Value.str "x")] ∨
          k ∈ keys [("children", Value.null)]) ∧
      ∀ k, k ∉ RESERVED_PROPS →
        (getProp k [("key", .str "row"), ("id", .str "x")]).isUndefined = false →
        props.lookup k = List.lookup k [("key", Value.str "row"), ("id", Value.str "x")] :=
  Story_missing_location (evalModule (.component "./AppLayout" [("children", .null)])).heap
    .undefined [("key", .str "row"), ("id", .str "x")] "./AppLayout" [("children", .null)]
    rfl rfl rfl (by decide) rfl rfl

/-- C6: after the module has run, `Default.args` is the record with exactly the
two fields `children` and `location`: `children` is the element of type
`Children` around the text "I am the app.", `location` is the record whose one
field `pathname` is the empty string. -/
theorem Default_args_fields (AppLayout : Value) :
    ownAt (evalModule AppLayout).heap (evalModule AppLayout).Default "args"
        = some (.obj Default_args) ∧
      Default_args =
        [ ("children", .element Children [("children", .str "I am the app.")]),
          ("location", .obj [("pathname", .str "")]) ] ∧
      keys Default_args = ["children", "location"] :=
  ⟨rfl, rfl, rfl⟩

/-- C7 (as stated, refuted): given the property `as: "span"`, `Children` renders
a `span`, not a `div`. -/
theorem Children_as_changes_tag :
    (renderStyled Children [("as", .str "span")]).map (fun frame => frame.type)
        = some (.str "span") ∧
      (renderStyled Children [("as", .str "span")]).map (fun frame => frame.type)
        ≠ some (.str "div") := by
  refine ⟨rfl, ?_⟩
  intro h
  have h1 : Value.str "span" = Value.str "div" := Option.some.inj h
  have h2 : "span" = "div" := Value.str.inj h1
  exact absurd h2 (by decide)

/-- C7 (amended): whatever properties and nested content `Children` is given,
it renders a frame whose own style is the fixed declaration list `display: flex`,
`align-items: center`, `justify-content: center`, `padding: 169px 0 100px`, and
hands the nested content on unchanged; the element is a `div` whenever the
property `as` is absent or falsy. -/
theorem Children_static_style (props : Props) :
    ∃ frame,
      renderStyled Children props = some frame ∧
      declarations frame.css =
        [ ("display", "flex"), ("align-items", "center"),
          ("justify-content", "center"), ("padding", "169px 0 100px") ] ∧
      frame.children = getProp "children" props ∧
      (truthy (getProp "as" props) = false → frame.type = .str "div") := by
  refine ⟨_, rfl, rfl, rfl, ?_⟩
  intro h
  show (if truthy (getProp "as" props) = true then getProp "as" props else Value.str "div")
    = Value.str "div"
  rw [h]
  rfl

/-- C7 (witness): the amended statement at the properties `Children` receives in
`Default.args`, where the element is a `div`. -/
theorem Children_static_style_witness :
    ∃ frame,
      renderStyled Children [("children", .str "I am the app.")] = some frame ∧
      frame.type = .str "div" := by
  obtain ⟨frame, hrender, _, _, htype⟩ :=
    Children_static_style [("children", .str "I am the app.")]
  exact ⟨frame, hrender, htype rfl⟩

/-- C8: `Default` is a function object of its own, `Story` bound to the
receiver `{}`: called with any receiver and any argument record it completes as
a plain call of `Story` does, namely as `Story` run with the receiver `{}`, also
at `Default.args`; the assignment of `Default.args` leaves `Story` without an
`args` property. -/
theorem Default_is_bound_Story (AppLayout : Value) (args : Props) (this : Value) :
    (evalModule AppLayout).Default ≠ (evalModule AppLayout).Story ∧
      callAt (evalModule AppLayout).heap (evalModule AppLayout).Default this args
        = callAt (evalModule AppLayout).heap (evalModule AppLayout).Story .undefined args ∧
      callAt (evalModule AppLayout).heap (evalModule AppLayout).Default this args
        = some (Story (evalModule AppLayout).heap (.obj []) args) ∧
      callAt (evalModule AppLayout).heap (evalModule AppLayout).Default this Default_args
        = some (Story (evalModule AppLayout).heap (.obj []) Default_args) ∧
      ownAt (evalModule AppLayout).heap (evalModule AppLayout).Default "args"
        = some (.obj Default_args) ∧
      ownAt (evalModule AppLayout).heap (evalModule AppLayout).Story "args" = none :=
  ⟨Nat.succ_ne_zero 0, rfl, rfl, rfl, rfl, rfl⟩

end AppLayoutStories
